import Mathlib

/-!
Verification of the greedy diet planner (TubesAKA.py): data model,
catalog loader, greedy selectors (iterative and recursive), benchmark
harness and summary, embedded shallowly in Lean 4.
-/

/-- Food item record: `Makanan(nama, kalori)` from the `@dataclass` in the source. -/
structure Makanan where
  nama : String
  kalori : Int
  deriving DecidableEq, Repr

/-- Default item used for (provably in-range) list indexing. -/
def dMak : Makanan := ⟨"", 0⟩

/-- Linear scan of the catalog keeping the best (index, difference) pair so far.
`none` models the initial Python state `idx_pilih = -1, selisih_min = inf`;
the best is replaced only on strict improvement (`selisih < selisih_min`). -/
def pilihAux (sisa : Int) : List Makanan → Nat → Option (Nat × Int) → Option (Nat × Int)
  | [], _, best => best
  | m :: rest, i, best =>
    let selisih := |m.kalori - sisa|
    let best' : Option (Nat × Int) :=
      match best with
      | none => some (i, selisih)
      | some (bi, bs) => if selisih < bs then some (i, selisih) else some (bi, bs)
    pilihAux sisa rest (i + 1) best'

/-- The index `idx_pilih` chosen by the scan in both selectors (`none` models `-1`). -/
def pilihIdx (sisa : Int) (menu : List Makanan) : Option Nat :=
  (pilihAux sisa menu 0 none).map Prod.fst

/-- Iterative greedy selector `greedy_menu`, with explicit fuel for the
`while sisa > 0` loop; `none` means the fuel ran out before the loop exited. -/
def greedyIterFuel : Nat → Int → List Makanan → Option (List Makanan)
  | 0, _, _ => none
  | fuel + 1, sisa, menu =>
    if sisa ≤ 0 then some []
    else
      match pilihIdx sisa menu with
      | none => some []
      | some i =>
        let m := menu.getD i dMak
        match greedyIterFuel fuel (sisa - m.kalori) menu with
        | none => none
        | some rest => some (m :: rest)

/-- Recursive greedy selector `greedy_menu_rekursif(sisa, menu, hasil)`: the
mutable accumulator `hasil` is passed explicitly and the final accumulated
list is returned; fuel bounds the recursion depth. -/
def greedyRekFuel : Nat → Int → List Makanan → List Makanan → Option (List Makanan)
  | 0, _, _, _ => none
  | fuel + 1, sisa, menu, hasil =>
    if sisa ≤ 0 then some hasil
    else
      match pilihIdx sisa menu with
      | none => some hasil
      | some i =>
        let m := menu.getD i dMak
        greedyRekFuel fuel (sisa - m.kalori) menu (hasil ++ [m])

/-- The recursive selector accumulates exactly the iterative selector's
output onto its accumulator, step for step (same fuel consumption). -/
lemma greedyRek_eq_iter (fuel : Nat) :
    ∀ (sisa : Int) (menu hasil : List Makanan),
      greedyRekFuel fuel sisa menu hasil =
        Option.map (hasil ++ ·) (greedyIterFuel fuel sisa menu) := by
  induction fuel with
  | zero => intro sisa menu hasil; rfl
  | succ fuel ih =>
    intro sisa menu hasil
    simp only [greedyRekFuel, greedyIterFuel]
    by_cases hs : sisa ≤ 0
    · simp [hs]
    · simp only [hs, if_false]
      cases hp : pilihIdx sisa menu with
      | none => simp
      | some i =>
        simp only []
        rw [ih]
        cases hrec : greedyIterFuel fuel (sisa - (menu.getD i dMak).kalori) menu with
        | none => simp
        | some rest => simp

/-- Claim C1: for every target and catalog (and every fuel bound, so in
particular whenever the selection terminates), the recursive selector run
with an empty accumulator returns exactly the iterative selector's ordered
result list. -/
theorem claim_C1_iter_rek_equal (fuel : Nat) (target : Int) (menu : List Makanan) :
    greedyRekFuel fuel target menu [] = greedyIterFuel fuel target menu := by
  rw [greedyRek_eq_iter]
  cases greedyIterFuel fuel target menu <;> simp

/-- Claim C1 witness: at the concrete input target 25, catalog of two items,
both selectors terminate with fuel 10 and agree. -/
theorem claim_C1_witness :
    greedyRekFuel 10 25 [⟨"a", 10⟩, ⟨"b", 20⟩] [] =
      greedyIterFuel 10 25 [⟨"a", 10⟩, ⟨"b", 20⟩] :=
  claim_C1_iter_rek_equal 10 25 [⟨"a", 10⟩, ⟨"b", 20⟩]

/-- Absolute difference `|menu[j].kalori - sisa|` scanned by both selectors. -/
def selD (sisa : Int) (menu : List Makanan) (j : Nat) : Int :=
  |(menu.getD j dMak).kalori - sisa|

lemma pilihAux_cons_none (sisa : Int) (m : Makanan) (rest : List Makanan) (i : Nat) :
    pilihAux sisa (m :: rest) i none =
      pilihAux sisa rest (i + 1) (some (i, |m.kalori - sisa|)) := rfl

lemma pilihAux_cons_some (sisa : Int) (m : Makanan) (rest : List Makanan)
    (i bi : Nat) (bs : Int) :
    pilihAux sisa (m :: rest) i (some (bi, bs)) =
      if |m.kalori - sisa| < bs then
        pilihAux sisa rest (i + 1) (some (i, |m.kalori - sisa|))
      else
        pilihAux sisa rest (i + 1) (some (bi, bs)) := by
  simp only [pilihAux]
  by_cases h : |m.kalori - sisa| < bs <;> simp [h]

/-- Invariant of the linear scan started on a genuine best pair: the result is
either the unchanged best pair (then the best beats every scanned item) or a
scanned item that strictly beats the best pair, is the earliest such, and is
minimal over the whole scanned suffix. -/
lemma pilihAux_some_spec (sisa : Int) :
    ∀ (l : List Makanan) (i bi : Nat) (bs : Int) (ri : Nat) (rs : Int),
      pilihAux sisa l i (some (bi, bs)) = some (ri, rs) →
      (ri = bi ∧ rs = bs ∧ ∀ k, k < l.length → bs ≤ |(l.getD k dMak).kalori - sisa|)
      ∨ (∃ k, k < l.length ∧ ri = i + k ∧ rs = |(l.getD k dMak).kalori - sisa| ∧
          rs < bs ∧
          (∀ j, j < k → rs < |(l.getD j dMak).kalori - sisa|) ∧
          (∀ j, j < l.length → rs ≤ |(l.getD j dMak).kalori - sisa|)) := by
  intro l
  induction l with
  | nil =>
    intro i bi bs ri rs h
    simp only [pilihAux, Option.some.injEq, Prod.mk.injEq] at h
    left
    exact ⟨h.1.symm, h.2.symm, fun k hk => absurd hk (by simp)⟩
  | cons m rest ih =>
    intro i bi bs ri rs h
    rw [pilihAux_cons_some] at h
    by_cases hm : |m.kalori - sisa| < bs
    · rw [if_pos hm] at h
      rcases ih (i + 1) i (|m.kalori - sisa|) ri rs h with hL | hR
      · -- the head stays best through the rest of the scan
        right
        refine ⟨0, by simp, by omega, by simpa using hL.2.1, by rw [hL.2.1]; exact hm,
          fun j hj => absurd hj (Nat.not_lt_zero j), ?_⟩
        intro j hj
        match j with
        | 0 => simp [hL.2.1]
        | j + 1 =>
          rw [List.getD_cons_succ]
          rw [hL.2.1]
          exact hL.2.2 j (by simpa using hj)
      · -- some later item strictly beats the head as well
        rcases hR with ⟨k, hk, hri, hrs, hlt, hstrict, hall⟩
        right
        refine ⟨k + 1, by simpa using hk, by omega, by simpa using hrs, lt_trans hlt hm, ?_, ?_⟩
        · intro j hj
          match j with
          | 0 => simpa using hlt
          | j + 1 =>
            rw [List.getD_cons_succ]
            exact hstrict j (by omega)
        · intro j hj
          match j with
          | 0 => simpa using le_of_lt hlt
          | j + 1 =>
            rw [List.getD_cons_succ]
            exact hall j (by simpa using hj)
    · rw [if_neg hm] at h
      push_neg at hm
      rcases ih (i + 1) bi bs ri rs h with hL | hR
      · left
        refine ⟨hL.1, hL.2.1, ?_⟩
        intro k hk
        match k with
        | 0 => simpa using hm
        | k + 1 =>
          rw [List.getD_cons_succ]
          exact hL.2.2 k (by simpa using hk)
      · rcases hR with ⟨k, hk, hri, hrs, hlt, hstrict, hall⟩
        right
        refine ⟨k + 1, by simpa using hk, by omega, by simpa using hrs, hlt, ?_, ?_⟩
        · intro j hj
          match j with
          | 0 => simpa using lt_of_lt_of_le hlt hm
          | j + 1 =>
            rw [List.getD_cons_succ]
            exact hstrict j (by omega)
        · intro j hj
          match j with
          | 0 => simpa using le_trans (le_of_lt hlt) hm
          | j + 1 =>
            rw [List.getD_cons_succ]
            exact hall j (by simpa using hj)

/-- A scan started from a `some` accumulator always returns `some`. -/
lemma pilihAux_some_isSome (sisa : Int) :
    ∀ (l : List Makanan) (i : Nat) (b : Nat × Int),
      (pilihAux sisa l i (some b)).isSome := by
  intro l
  induction l with
  | nil => intro i b; simp [pilihAux]
  | cons m rest ih =>
    intro i b
    obtain ⟨bi, bs⟩ := b
    rw [pilihAux_cons_some]
    by_cases hm : |m.kalori - sisa| < bs
    · rw [if_pos hm]; exact ih (i + 1) (i, |m.kalori - sisa|)
    · rw [if_neg hm]; exact ih (i + 1) (bi, bs)

/-- On a non-empty catalog the scan picks an in-range index that is minimal in
absolute difference, and is the earliest index attaining that minimum. -/
lemma pilihIdx_spec (sisa : Int) (menu : List Makanan) (hne : menu ≠ []) :
    ∃ i, pilihIdx sisa menu = some i ∧ i < menu.length ∧
      (∀ j, j < menu.length → selD sisa menu i ≤ selD sisa menu j) ∧
      (∀ j, j < i → selD sisa menu i < selD sisa menu j) := by
  match menu with
  | [] => exact absurd rfl hne
  | m :: rest =>
    obtain ⟨⟨ri, rs⟩, hres⟩ :=
      Option.isSome_iff_exists.mp
        (pilihAux_some_isSome sisa rest 1 (0, |m.kalori - sisa|))
    have hidx : pilihIdx sisa (m :: rest) = some ri := by
      unfold pilihIdx
      rw [pilihAux_cons_none, hres]
      rfl
    have hsel0 : selD sisa (m :: rest) 0 = |m.kalori - sisa| := by
      simp [selD]
    have hselS : ∀ j : Nat, selD sisa (m :: rest) (j + 1) = |(rest.getD j dMak).kalori - sisa| := by
      intro j; simp [selD]
    rcases pilihAux_some_spec sisa rest 1 0 (|m.kalori - sisa|) ri rs hres with hL | hR
    · obtain ⟨hri0, hrs0, hrest⟩ := hL
      subst hri0
      refine ⟨0, hidx, by simp, ?_, fun j hj => absurd hj (Nat.not_lt_zero j)⟩
      intro j hj
      match j with
      | 0 => exact le_refl _
      | j + 1 =>
        rw [hsel0, hselS j]
        exact hrest j (by simpa using hj)
    · rcases hR with ⟨k, hk, hri, hrs, hlt, hstrict, hall⟩
      have hri' : ri = k + 1 := by omega
      subst hri'
      have hselri : selD sisa (m :: rest) (k + 1) = rs := by rw [hselS k, hrs]
      refine ⟨k + 1, hidx, by simpa using hk, ?_, ?_⟩
      · intro j hj
        match j with
        | 0 => rw [hselri, hsel0]; exact le_of_lt hlt
        | j + 1 =>
          rw [hselri, hselS j]
          exact hall j (by simpa using hj)
      · intro j hj
        match j with
        | 0 => rw [hselri, hsel0]; exact hlt
        | j + 1 =>
          rw [hselri, hselS j]
          exact hstrict j (by omega)

/-- One unfolding of the iterative loop body when an index is selected. -/
lemma greedyIterFuel_step (fuel : Nat) (sisa : Int) (menu : List Makanan)
    (i : Nat) (h0 : 0 < sisa) (hp : pilihIdx sisa menu = some i) :
    greedyIterFuel (fuel + 1) sisa menu =
      Option.map (menu.getD i dMak :: ·)
        (greedyIterFuel fuel (sisa - (menu.getD i dMak).kalori) menu) := by
  simp only [greedyIterFuel]
  rw [if_neg (by omega), hp]
  show (match greedyIterFuel fuel (sisa - (menu.getD i dMak).kalori) menu with
    | none => none
    | some rest => some (menu.getD i dMak :: rest)) =
    Option.map (menu.getD i dMak :: ·)
      (greedyIterFuel fuel (sisa - (menu.getD i dMak).kalori) menu)
  cases greedyIterFuel fuel (sisa - (menu.getD i dMak).kalori) menu <;> rfl

/-- One unfolding of the recursive call body when an index is selected. -/
lemma greedyRekFuel_step (fuel : Nat) (sisa : Int) (menu hasil : List Makanan)
    (i : Nat) (h0 : 0 < sisa) (hp : pilihIdx sisa menu = some i) :
    greedyRekFuel (fuel + 1) sisa menu hasil =
      greedyRekFuel fuel (sisa - (menu.getD i dMak).kalori) menu
        (hasil ++ [menu.getD i dMak]) := by
  simp only [greedyRekFuel]
  rw [if_neg (by omega), hp]

/-- Claim C2: at each selection step on a positive remaining budget and a
non-empty catalog, both selectors pick an in-range index whose absolute
difference to the remaining budget is minimal over the whole catalog and
which is the earliest index attaining that minimum; the picked item is
prepended to the rest of the selection (appended in selection order) and the
remaining budget decreases by exactly that item's calorie value. -/
theorem claim_C2_closest_first (sisa : Int) (menu : List Makanan) (fuel : Nat)
    (h0 : 0 < sisa) (hne : menu ≠ []) :
    ∃ i, pilihIdx sisa menu = some i ∧ i < menu.length ∧
      (∀ j, j < menu.length → selD sisa menu i ≤ selD sisa menu j) ∧
      (∀ j, j < i → selD sisa menu i < selD sisa menu j) ∧
      greedyIterFuel (fuel + 1) sisa menu =
        Option.map (menu.getD i dMak :: ·)
          (greedyIterFuel fuel (sisa - (menu.getD i dMak).kalori) menu) ∧
      ∀ hasil, greedyRekFuel (fuel + 1) sisa menu hasil =
        greedyRekFuel fuel (sisa - (menu.getD i dMak).kalori) menu
          (hasil ++ [menu.getD i dMak]) := by
  obtain ⟨i, hp, hlen, hmin, hfirst⟩ := pilihIdx_spec sisa menu hne
  exact ⟨i, hp, hlen, hmin, hfirst,
    greedyIterFuel_step fuel sisa menu i h0 hp,
    fun hasil => greedyRekFuel_step fuel sisa menu hasil i h0 hp⟩

/-- Claim C2 witness: at remaining budget 10 on the catalog with two items of
calories 10 and 10, the hypotheses hold and the scan picks position 0
(earliest-wins tie-break). -/
theorem claim_C2_witness :
    (∃ i, pilihIdx 10 [⟨"a", 10⟩, ⟨"b", 10⟩] = some i ∧
      i < ([⟨"a", 10⟩, ⟨"b", 10⟩] : List Makanan).length ∧
      (∀ j, j < ([⟨"a", 10⟩, ⟨"b", 10⟩] : List Makanan).length →
        selD 10 [⟨"a", 10⟩, ⟨"b", 10⟩] i ≤ selD 10 [⟨"a", 10⟩, ⟨"b", 10⟩] j) ∧
      (∀ j, j < i → selD 10 [⟨"a", 10⟩, ⟨"b", 10⟩] i < selD 10 [⟨"a", 10⟩, ⟨"b", 10⟩] j) ∧
      greedyIterFuel 2 10 [⟨"a", 10⟩, ⟨"b", 10⟩] =
        Option.map (([⟨"a", 10⟩, ⟨"b", 10⟩] : List Makanan).getD i dMak :: ·)
          (greedyIterFuel 1
            (10 - (([⟨"a", 10⟩, ⟨"b", 10⟩] : List Makanan).getD i dMak).kalori)
            [⟨"a", 10⟩, ⟨"b", 10⟩]) ∧
      ∀ hasil, greedyRekFuel 2 10 [⟨"a", 10⟩, ⟨"b", 10⟩] hasil =
        greedyRekFuel 1
          (10 - (([⟨"a", 10⟩, ⟨"b", 10⟩] : List Makanan).getD i dMak).kalori)
          [⟨"a", 10⟩, ⟨"b", 10⟩]
          (hasil ++ [([⟨"a", 10⟩, ⟨"b", 10⟩] : List Makanan).getD i dMak])) ∧
    pilihIdx 10 [⟨"a", 10⟩, ⟨"b", 10⟩] = some 0 :=
  ⟨claim_C2_closest_first 10 [⟨"a", 10⟩, ⟨"b", 10⟩] 1 (by decide) (by decide),
    by decide⟩

/-- Minimum calorie value of the catalog (0 for the empty catalog). -/
def minKal (menu : List Makanan) : Int :=
  match menu.map Makanan.kalori with
  | [] => 0
  | x :: xs => xs.foldl min x

lemma foldl_min_le_init (xs : List Int) : ∀ a : Int, xs.foldl min a ≤ a := by
  induction xs with
  | nil => intro a; simp
  | cons x xs ih =>
    intro a
    calc (x :: xs).foldl min a = xs.foldl min (min a x) := rfl
    _ ≤ min a x := ih (min a x)
    _ ≤ a := min_le_left a x

lemma foldl_min_le_mem (xs : List Int) : ∀ (a x : Int), x ∈ xs → xs.foldl min a ≤ x := by
  induction xs with
  | nil => intro a x hx; simp at hx
  | cons y ys ih =>
    intro a x hx
    rcases List.mem_cons.mp hx with rfl | hx'
    · calc (x :: ys).foldl min a = ys.foldl min (min a x) := rfl
      _ ≤ min a x := foldl_min_le_init ys (min a x)
      _ ≤ x := min_le_right a x
    · exact ih (min a y) x hx'

lemma foldl_min_mem (xs : List Int) : ∀ a : Int, xs.foldl min a = a ∨ xs.foldl min a ∈ xs := by
  induction xs with
  | nil => intro a; left; rfl
  | cons x xs ih =>
    intro a
    have hstep : (x :: xs).foldl min a = xs.foldl min (min a x) := rfl
    rcases ih (min a x) with heq | hmem
    · rcases min_choice a x with hax | hax
      · left; rw [hstep, heq, hax]
      · right; rw [hstep, heq, hax]; exact List.mem_cons_self x xs
    · right; rw [hstep]; exact List.mem_cons_of_mem x hmem

/-- The catalog minimum bounds every member's calorie value from below. -/
lemma minKal_le (menu : List Makanan) (m : Makanan) (hm : m ∈ menu) :
    minKal menu ≤ m.kalori := by
  match menu with
  | [] => simp at hm
  | m0 :: rest =>
    have : minKal (m0 :: rest) = (rest.map Makanan.kalori).foldl min m0.kalori := rfl
    rw [this]
    rcases List.mem_cons.mp hm with rfl | hm'
    · exact foldl_min_le_init _ _
    · exact foldl_min_le_mem _ _ _ (List.mem_map_of_mem Makanan.kalori hm')

/-- On an all-positive non-empty catalog the minimum calorie value is positive. -/
lemma minKal_pos (menu : List Makanan) (hne : menu ≠ [])
    (hpos : ∀ m ∈ menu, 0 < m.kalori) : 0 < minKal menu := by
  match menu with
  | [] => exact absurd rfl hne
  | m0 :: rest =>
    have hstep : minKal (m0 :: rest) = (rest.map Makanan.kalori).foldl min m0.kalori := rfl
    rw [hstep]
    rcases foldl_min_mem (rest.map Makanan.kalori) m0.kalori with heq | hmem
    · rw [heq]; exact hpos m0 (List.mem_cons_self m0 rest)
    · obtain ⟨m', hm', hval⟩ := List.mem_map.mp hmem
      rw [← hval]; exact hpos m' (List.mem_cons_of_mem m0 hm')

/-- The item at the selected index is a member of the catalog. -/
lemma getD_mem_of_lt (menu : List Makanan) (i : Nat) (h : i < menu.length) :
    menu.getD i dMak ∈ menu := by
  rw [List.getD_eq_getElem menu dMak h]
  exact List.getElem_mem h

/-- On an all-positive non-empty catalog the iterative loop exits within
`sisa.toNat` selections: fuel `sisa.toNat + 1` suffices. -/
lemma greedyIter_terminates (menu : List Makanan) (hne : menu ≠ [])
    (hpos : ∀ m ∈ menu, 0 < m.kalori) :
    ∀ (fuel : Nat) (sisa : Int), sisa.toNat < fuel →
      ∃ l, greedyIterFuel fuel sisa menu = some l := by
  intro fuel
  induction fuel with
  | zero => intro sisa h; omega
  | succ fuel ih =>
    intro sisa h
    by_cases hs : sisa ≤ 0
    · exact ⟨[], by simp [greedyIterFuel, hs]⟩
    · obtain ⟨i, hp, hlen, _, _⟩ := pilihIdx_spec sisa menu hne
      have hk : 0 < (menu.getD i dMak).kalori :=
        hpos _ (getD_mem_of_lt menu i hlen)
      obtain ⟨l, hl⟩ := ih (sisa - (menu.getD i dMak).kalori) (by omega)
      refine ⟨menu.getD i dMak :: l, ?_⟩
      rw [greedyIterFuel_step fuel sisa menu i (by omega) hp, hl]
      rfl

/-- Length bound on a terminating run: each selection removes at least the
catalog minimum from the remaining budget, which stays positive before
every selection. -/
lemma greedyIter_length_bound (menu : List Makanan) (hne : menu ≠ []) :
    ∀ (fuel : Nat) (sisa : Int) (l : List Makanan), 0 < sisa →
      greedyIterFuel fuel sisa menu = some l →
      minKal menu * ((l.length : Int) - 1) < sisa := by
  intro fuel
  induction fuel with
  | zero =>
    intro sisa l h0 h
    exact absurd h (by simp [greedyIterFuel])
  | succ fuel ih =>
    intro sisa l h0 h
    obtain ⟨i, hp, hlen, _, _⟩ := pilihIdx_spec sisa menu hne
    rw [greedyIterFuel_step fuel sisa menu i h0 hp] at h
    cases hrec : greedyIterFuel fuel (sisa - (menu.getD i dMak).kalori) menu with
    | none => rw [hrec] at h; simp at h
    | some rest =>
      rw [hrec] at h
      rw [show Option.map (menu.getD i dMak :: ·) (some rest) =
            some (menu.getD i dMak :: rest) from rfl] at h
      obtain rfl : l = menu.getD i dMak :: rest := (Option.some.injEq _ _).mp h.symm
      have hkmin : minKal menu ≤ (menu.getD i dMak).kalori :=
        minKal_le menu _ (getD_mem_of_lt menu i hlen)
      by_cases hs' : sisa - (menu.getD i dMak).kalori ≤ 0
      · have hrest : rest = [] := by
          match fuel, hrec with
          | fuel + 1, hrec =>
            simp only [greedyIterFuel, if_pos hs'] at hrec
            exact (Option.some.injEq _ _ ▸ hrec.symm)
        subst hrest
        simpa using h0
      · have hih := ih (sisa - (menu.getD i dMak).kalori) rest (by omega) hrec
        have hexp : minKal menu * (((menu.getD i dMak :: rest).length : Int) - 1) =
            minKal menu * ((rest.length : Int) - 1) + minKal menu := by
          push_cast [List.length_cons]
          ring
        rw [hexp]
        omega

/-- Claim C8: for every positive target and non-empty all-positive-calorie
catalog, both selectors terminate and select at most
`(T + min - 1) / min` items, i.e. `T` divided by the catalog's minimum
calorie value, rounded up. -/
theorem claim_C8_termination_bound (T : Int) (menu : List Makanan)
    (hT : 0 < T) (hne : menu ≠ []) (hpos : ∀ m ∈ menu, 0 < m.kalori) :
    ∃ fuel l, greedyIterFuel fuel T menu = some l ∧
      greedyRekFuel fuel T menu [] = some l ∧
      (l.length : Int) ≤ (T + minKal menu - 1) / minKal menu := by
  obtain ⟨l, hl⟩ := greedyIter_terminates menu hne hpos (T.toNat + 1) T (by omega)
  refine ⟨T.toNat + 1, l, hl, ?_, ?_⟩
  · rw [greedyRek_eq_iter, hl]
    rfl
  · have hb := greedyIter_length_bound menu hne (T.toNat + 1) T l hT hl
    have hmp := minKal_pos menu hne hpos
    rw [Int.le_ediv_iff_mul_le hmp]
    have h2 : (l.length : Int) * minKal menu =
        minKal menu * ((l.length : Int) - 1) + minKal menu := by ring
    linarith [hb, h2]

/-- Claim C8 witness: target 1 against a catalog containing a calorie-1 item
satisfies the hypotheses, so the selection terminates with the stated bound. -/
theorem claim_C8_witness :
    (0 : Int) < 1 ∧ ([⟨"x", 1⟩] : List Makanan) ≠ [] ∧
      (∀ m ∈ ([⟨"x", 1⟩] : List Makanan), 0 < m.kalori) ∧
      ∃ fuel l, greedyIterFuel fuel 1 [⟨"x", 1⟩] = some l ∧
        greedyRekFuel fuel 1 [⟨"x", 1⟩] [] = some l ∧
        (l.length : Int) ≤ (1 + minKal [⟨"x", 1⟩] - 1) / minKal [⟨"x", 1⟩] :=
  ⟨by decide, by decide, by decide,
    claim_C8_termination_bound 1 [⟨"x", 1⟩] (by decide) (by decide) (by decide)⟩

/-- The scan on an empty catalog selects nothing (`idx_pilih` stays `-1`). -/
lemma pilihIdx_nil (sisa : Int) : pilihIdx sisa [] = none := rfl

/-- Exiting the loop: a call on a non-positive remaining budget selects nothing. -/
lemma greedyIterFuel_nonpos (fuel : Nat) (sisa : Int) (menu : List Makanan)
    (hs : sisa ≤ 0) : greedyIterFuel (fuel + 1) sisa menu = some [] := by
  simp [greedyIterFuel, hs]

/-- Every proper prefix of a terminating run sums to strictly less than the
budget the run started from. -/
lemma greedyIter_prefix_lt (menu : List Makanan) :
    ∀ (fuel : Nat) (sisa : Int) (l : List Makanan),
      0 < sisa → greedyIterFuel fuel sisa menu = some l →
      ∀ k, k < l.length → ((l.take k).map Makanan.kalori).sum < sisa := by
  intro fuel
  induction fuel with
  | zero =>
    intro sisa l h0 h
    exact absurd h (by simp [greedyIterFuel])
  | succ fuel ih =>
    intro sisa l h0 h
    cases hp : pilihIdx sisa menu with
    | none =>
      have hres : greedyIterFuel (fuel + 1) sisa menu = some [] := by
        simp only [greedyIterFuel]
        rw [if_neg (by omega), hp]
      rw [hres] at h
      obtain rfl : l = [] := (Option.some.injEq _ _).mp h.symm
      intro k hk
      exact absurd hk (by simp)
    | some i =>
      rw [greedyIterFuel_step fuel sisa menu i h0 hp] at h
      cases hrec : greedyIterFuel fuel (sisa - (menu.getD i dMak).kalori) menu with
      | none => rw [hrec] at h; simp at h
      | some rest =>
        rw [hrec] at h
        rw [show Option.map (menu.getD i dMak :: ·) (some rest) =
              some (menu.getD i dMak :: rest) from rfl] at h
        obtain rfl : l = menu.getD i dMak :: rest := (Option.some.injEq _ _).mp h.symm
        intro k hk
        match k with
        | 0 => simpa using h0
        | k + 1 =>
          by_cases hs' : sisa - (menu.getD i dMak).kalori ≤ 0
          · exfalso
            have hrest : rest = [] := by
              match fuel, hrec with
              | fuel + 1, hrec =>
                rw [greedyIterFuel_nonpos fuel _ menu hs'] at hrec
                exact (Option.some.injEq _ _).mp hrec.symm
            subst hrest
            simp at hk
          · have hk' : k < rest.length := by simpa using hk
            have := ih (sisa - (menu.getD i dMak).kalori) rest (by omega) hrec k hk'
            simp only [List.take_succ_cons, List.map_cons, List.sum_cons]
            omega

/-- Claim C9: on a terminating run with positive target, the recursive
selector returns the same list, and every proper prefix of the result sums
to strictly less than the target: the loop performs no further selection
once the remaining budget has crossed zero (at most one overshoot step). -/
theorem claim_C9_prefix_invariant (target : Int) (menu : List Makanan)
    (fuel : Nat) (l : List Makanan) (h0 : 0 < target)
    (h : greedyIterFuel fuel target menu = some l) :
    greedyRekFuel fuel target menu [] = some l ∧
    ∀ k, k < l.length → ((l.take k).map Makanan.kalori).sum < target := by
  constructor
  · rw [greedyRek_eq_iter, h]
    rfl
  · exact greedyIter_prefix_lt menu fuel target l h0 h

/-- Claim C9 witness: target 25 on a two-item catalog terminates with result
[b(20), a(10)]; its one proper nonempty prefix sums to 20 < 25. -/
theorem claim_C9_witness :
    greedyRekFuel 10 25 [⟨"a", 10⟩, ⟨"b", 20⟩] [] =
        some [⟨"b", 20⟩, ⟨"a", 10⟩] ∧
    ∀ k, k < ([⟨"b", 20⟩, ⟨"a", 10⟩] : List Makanan).length →
      ((([⟨"b", 20⟩, ⟨"a", 10⟩] : List Makanan).take k).map Makanan.kalori).sum < 25 :=
  claim_C9_prefix_invariant 25 [⟨"a", 10⟩, ⟨"b", 20⟩] 10 [⟨"b", 20⟩, ⟨"a", 10⟩]
    (by decide) (by decide)

/-- Claim C10: outside the spec's preconditions the selectors degrade
gracefully: a non-positive target yields the empty selection (the loop is
never entered), and the empty catalog yields the empty selection via the
no-candidate branch; the recursive selector appends nothing to its
accumulator in either case. -/
theorem claim_C10_degenerate (target : Int) (menu : List Makanan)
    (fuel : Nat) (hasil : List Makanan) :
    (target ≤ 0 →
      greedyIterFuel (fuel + 1) target menu = some [] ∧
      greedyRekFuel (fuel + 1) target menu hasil = some hasil) ∧
    (greedyIterFuel (fuel + 1) target [] = some [] ∧
      greedyRekFuel (fuel + 1) target [] hasil = some hasil) := by
  constructor
  · intro ht
    exact ⟨by simp [greedyIterFuel, ht], by simp [greedyRekFuel, ht]⟩
  · by_cases ht : target ≤ 0
    · exact ⟨by simp [greedyIterFuel, ht], by simp [greedyRekFuel, ht]⟩
    · constructor
      · simp only [greedyIterFuel]
        rw [if_neg ht, pilihIdx_nil]
      · simp only [greedyRekFuel]
        rw [if_neg ht, pilihIdx_nil]

/-- Claim C10 witness: at target -1 with a one-item catalog, and at target 7
with the empty catalog, both selectors return the empty selection and the
accumulator is returned unchanged. -/
theorem claim_C10_witness :
    ((-1 : Int) ≤ 0 ∧
      greedyIterFuel 1 (-1) [⟨"a", 5⟩] = some [] ∧
      greedyRekFuel 1 (-1) [⟨"a", 5⟩] [⟨"z", 3⟩] = some [⟨"z", 3⟩]) ∧
    (greedyIterFuel 1 7 [] = some [] ∧
      greedyRekFuel 1 7 [] [⟨"z", 3⟩] = some [⟨"z", 3⟩]) :=
  ⟨⟨by decide, (claim_C10_degenerate (-1) [⟨"a", 5⟩] 0 [⟨"z", 3⟩]).1 (by decide)⟩,
    (claim_C10_degenerate 7 [] 0 [⟨"z", 3⟩]).2⟩

/-- A raw calorie cell as seen through `int(row["Kalori_kcal"])`: either a
value that coerces to an integer, or one (non-numeric string, NaN / missing)
on which `int(...)` raises `ValueError`. -/
inductive Cell where
  | num (n : Int)
  | invalid
  deriving DecidableEq, Repr

/-- A parsed CSV row restricted to the two fields the loader reads. -/
structure RawRow where
  nama : String
  kalori : Cell
  deriving DecidableEq, Repr

/-- The tabular source: its column names and its rows. -/
structure Frame where
  columns : List String
  rows : List RawRow
  deriving DecidableEq, Repr

/-- Errors that `load_menu_from_csv` can propagate: the explicit
`ValueError` raised on a missing required column (carrying the required and
found column sets that the message interpolates), and the `ValueError`
raised by `int(...)` on a non-coercible calorie value. -/
inductive LoadError where
  | schemaError (required found : List String)
  | coercionError
  deriving DecidableEq, Repr

/-- The `required_cols` set from the source. -/
def required_cols : List String := ["Nama_Makanan", "Kalori_kcal"]

/-- The coercion `int(cell)`: `none` models the raised `ValueError`. -/
def coerceInt : Cell → Option Int
  | Cell.num n => some n
  | Cell.invalid => none

/-- The list comprehension over `df.iterrows()`: rows are converted left to
right and the first non-coercible calorie value aborts the whole
comprehension with the `int(...)` error. -/
def loadRows : List RawRow → Except LoadError (List Makanan)
  | [] => Except.ok []
  | r :: rest =>
    match coerceInt r.kalori with
    | none => Except.error LoadError.coercionError
    | some n =>
      match loadRows rest with
      | Except.ok items => Except.ok (Makanan.mk r.nama n :: items)
      | Except.error e => Except.error e

/-- `load_menu_from_csv`: checks `required_cols.issubset(df.columns)`,
raising the schema `ValueError` otherwise, then builds the catalog row by
row. -/
def load_menu_from_csv (f : Frame) : Except LoadError (List Makanan) :=
  if ∀ c ∈ required_cols, c ∈ f.columns then
    loadRows f.rows
  else
    Except.error (LoadError.schemaError required_cols f.columns)

/-- Row conversion can only fail with the coercion error, never with a
schema error. -/
lemma loadRows_ne_schema :
    ∀ (rows : List RawRow) (req fnd : List String),
      loadRows rows ≠ Except.error (LoadError.schemaError req fnd) := by
  intro rows
  induction rows with
  | nil =>
    intro req fnd h
    exact Except.noConfusion h
  | cons r rest ih =>
    intro req fnd h
    simp only [loadRows] at h
    cases hc : coerceInt r.kalori with
    | none =>
      rw [hc] at h
      exact LoadError.noConfusion (Except.error.injEq _ _ ▸ h)
    | some n =>
      rw [hc] at h
      cases hrec : loadRows rest with
      | ok items => rw [hrec] at h; exact Except.noConfusion h
      | error e =>
        rw [hrec] at h
        have he : e = LoadError.schemaError req fnd := by
          have := (Except.error.injEq (α := List Makanan) e (LoadError.schemaError req fnd)).mp h
          exact this
        exact ih req fnd (he ▸ hrec)

/-- A non-coercible row anywhere in the list aborts the whole conversion
with the coercion error. -/
lemma loadRows_bad (rows : List RawRow)
    (hbad : ∃ r ∈ rows, coerceInt r.kalori = none) :
    loadRows rows = Except.error LoadError.coercionError := by
  induction rows with
  | nil => obtain ⟨r, hr, _⟩ := hbad; simp at hr
  | cons r rest ih =>
    obtain ⟨r', hr', hc'⟩ := hbad
    rcases List.mem_cons.mp hr' with rfl | hmem
    · simp only [loadRows, hc']
    · cases hc : coerceInt r.kalori with
      | none => simp only [loadRows, hc]
      | some n =>
        simp only [loadRows, hc]
        rw [ih ⟨r', hmem, hc'⟩]

/-- If every row coerces, the whole load succeeds. -/
lemma loadRows_ok (rows : List RawRow)
    (hgood : ∀ r ∈ rows, (coerceInt r.kalori).isSome) :
    ∃ items, loadRows rows = Except.ok items := by
  induction rows with
  | nil => exact ⟨[], rfl⟩
  | cons r rest ih =>
    obtain ⟨n, hn⟩ := Option.isSome_iff_exists.mp (hgood r (List.mem_cons_self r rest))
    obtain ⟨items, hitems⟩ := ih fun r' hr' => hgood r' (List.mem_cons_of_mem r hr')
    exact ⟨Makanan.mk r.nama n :: items, by simp only [loadRows, hn, hitems]⟩

/-- Claim C5: the loader fails with the schema error naming the required
(hence the missing) fields exactly when a required field is absent; when
both required fields are present it never raises a schema error. -/
theorem claim_C5_schema_error (f : Frame) :
    (("Nama_Makanan" ∉ f.columns ∨ "Kalori_kcal" ∉ f.columns) →
      load_menu_from_csv f =
        Except.error (LoadError.schemaError required_cols f.columns) ∧
      "Nama_Makanan" ∈ required_cols ∧ "Kalori_kcal" ∈ required_cols) ∧
    (("Nama_Makanan" ∈ f.columns ∧ "Kalori_kcal" ∈ f.columns) →
      ∀ req fnd, load_menu_from_csv f ≠
        Except.error (LoadError.schemaError req fnd)) := by
  constructor
  · intro hmiss
    refine ⟨?_, by decide, by decide⟩
    unfold load_menu_from_csv
    rw [if_neg]
    intro hall
    rcases hmiss with hm | hm
    · exact hm (hall "Nama_Makanan" (by decide))
    · exact hm (hall "Kalori_kcal" (by decide))
  · intro hboth req fnd
    unfold load_menu_from_csv
    rw [if_pos]
    · exact loadRows_ne_schema f.rows req fnd
    · intro c hc
      rcases (by simpa [required_cols] using hc : c = "Nama_Makanan" ∨ c = "Kalori_kcal") with
        rfl | rfl
      · exact hboth.1
      · exact hboth.2

/-- Claim C5 witness: a source missing the calorie column raises the schema
error carrying the required-field names (which include the missing field). -/
theorem claim_C5_witness :
    load_menu_from_csv ⟨["Nama_Makanan"], []⟩ =
        Except.error (LoadError.schemaError required_cols ["Nama_Makanan"]) ∧
      "Nama_Makanan" ∈ required_cols ∧ "Kalori_kcal" ∈ required_cols :=
  (claim_C5_schema_error ⟨["Nama_Makanan"], []⟩).1 (by decide)

/-- Source with both required columns, one good row, one non-numeric row. -/
def frameC3 : Frame :=
  ⟨["Nama_Makanan", "Kalori_kcal"],
    [⟨"Ayam", Cell.num 100⟩, ⟨"Batu", Cell.invalid⟩]⟩

/-- Claim C3 counterexample: with both required fields present, a row whose
calorie value cannot be coerced is NOT silently dropped — the whole load
fails with the coercion `ValueError` instead of succeeding on the remaining
rows. -/
theorem claim_C3_counterexample :
    load_menu_from_csv frameC3 = Except.error LoadError.coercionError ∧
      load_menu_from_csv frameC3 ≠ Except.ok [⟨"Ayam", 100⟩] := by
  constructor
  · rfl
  · intro h
    exact Except.noConfusion
      ((rfl : load_menu_from_csv frameC3 = Except.error LoadError.coercionError) ▸ h)

/-- Claim C3 amended: when the source contains both required fields, the
presence of any row whose calorie value cannot be coerced makes the whole
load fail with the coercion error (no row is dropped), and the load
succeeds exactly when every row's calorie value coerces. -/
theorem claim_C3_amended (f : Frame)
    (hcols : ∀ c ∈ required_cols, c ∈ f.columns) :
    ((∃ r ∈ f.rows, coerceInt r.kalori = none) →
      load_menu_from_csv f = Except.error LoadError.coercionError) ∧
    ((∀ r ∈ f.rows, (coerceInt r.kalori).isSome) →
      ∃ items, load_menu_from_csv f = Except.ok items) := by
  constructor
  · intro hbad
    unfold load_menu_from_csv
    rw [if_pos hcols]
    exact loadRows_bad f.rows hbad
  · intro hgood
    unfold load_menu_from_csv
    rw [if_pos hcols]
    exact loadRows_ok f.rows hgood

/-- Claim C3 amended witness: on the two-row source with one bad row the
hypotheses hold and the load fails as a whole with the coercion error. -/
theorem claim_C3_amended_witness :
    (∀ c ∈ required_cols, c ∈ frameC3.columns) ∧
    (((∃ r ∈ frameC3.rows, coerceInt r.kalori = none) →
      load_menu_from_csv frameC3 = Except.error LoadError.coercionError) ∧
    ((∀ r ∈ frameC3.rows, (coerceInt r.kalori).isSome) →
      ∃ items, load_menu_from_csv frameC3 = Except.ok items)) :=
  ⟨by decide, claim_C3_amended frameC3 (by decide)⟩

/-- Source with both required columns and no rows at all. -/
def frameC4empty : Frame := ⟨["Nama_Makanan", "Kalori_kcal"], []⟩

/-- Source with both required columns where every row is non-numeric. -/
def frameC4allBad : Frame :=
  ⟨["Nama_Makanan", "Kalori_kcal"], [⟨"Batu", Cell.invalid⟩, ⟨"Kayu", Cell.invalid⟩]⟩

/-- Claim C4 counterexample: when zero items remain (a source with both
required columns and no rows) the loader does NOT fail with any
empty-catalog error — it succeeds and returns the empty catalog; and on a
source where every row is non-numeric it fails with the per-row coercion
error, not a distinct empty-catalog error. -/
theorem claim_C4_counterexample :
    load_menu_from_csv frameC4empty = Except.ok [] ∧
      load_menu_from_csv frameC4allBad = Except.error LoadError.coercionError := by
  exact ⟨rfl, rfl⟩

/-- Claim C4 amended: the loader performs no empty-result check. With both
required columns present, a source with no rows loads successfully as the
empty catalog, and a source whose rows all fail coercion propagates the
first coercion `ValueError` (there is no distinct empty-catalog error in
the program). -/
theorem claim_C4_amended (f : Frame)
    (hcols : ∀ c ∈ required_cols, c ∈ f.columns) :
    (f.rows = [] → load_menu_from_csv f = Except.ok []) ∧
    (f.rows ≠ [] → (∀ r ∈ f.rows, coerceInt r.kalori = none) →
      load_menu_from_csv f = Except.error LoadError.coercionError) := by
  constructor
  · intro hnil
    unfold load_menu_from_csv
    rw [if_pos hcols, hnil]
    rfl
  · intro hne hall
    unfold load_menu_from_csv
    rw [if_pos hcols]
    obtain ⟨r, rest, hrows⟩ : ∃ r rest, f.rows = r :: rest := by
      cases hr : f.rows with
      | nil => exact absurd hr hne
      | cons a b => exact ⟨a, b, rfl⟩
    have hmem : r ∈ f.rows := by rw [hrows]; exact List.mem_cons_self r rest
    exact loadRows_bad f.rows ⟨r, hmem, hall r hmem⟩

/-- Claim C4 amended witness: the all-non-numeric source satisfies the
hypotheses; its load propagates the coercion error, and the no-rows clause
holds vacuously. -/
theorem claim_C4_amended_witness :
    (∀ c ∈ required_cols, c ∈ frameC4allBad.columns) ∧
    ((frameC4allBad.rows = [] → load_menu_from_csv frameC4allBad = Except.ok []) ∧
    (frameC4allBad.rows ≠ [] →
      (∀ r ∈ frameC4allBad.rows, coerceInt r.kalori = none) →
      load_menu_from_csv frameC4allBad = Except.error LoadError.coercionError)) :=
  ⟨by decide, claim_C4_amended frameC4allBad (by decide)⟩

/-- `summarize(target, items)`: total calories, signed difference from the
target, and the status label from the three-way branch on the sign of the
difference. -/
def summarize (target : Int) (items : List Makanan) : Int × Int × String :=
  let total := (items.map Makanan.kalori).sum
  let diff := total - target
  let status :=
    if diff = 0 then "Tepat"
    else if 0 < diff then "Terlampaui (+" ++ toString diff ++ ")"
    else "Kurang (" ++ toString diff ++ ")"
  (total, diff, status)

lemma terlampaui_ne_tepat (s : String) : "Terlampaui (+" ++ s ++ ")" ≠ "Tepat" := by
  intro h
  have h2 := congrArg String.length h
  rw [String.length_append, String.length_append] at h2
  have e1 : ("Terlampaui (+" : String).length = 13 := rfl
  have e2 : (")" : String).length = 1 := rfl
  have e3 : ("Tepat" : String).length = 5 := rfl
  omega

lemma kurang_ne_tepat (s : String) : "Kurang (" ++ s ++ ")" ≠ "Tepat" := by
  intro h
  have h2 := congrArg String.length h
  rw [String.length_append, String.length_append] at h2
  have e1 : ("Kurang (" : String).length = 8 := rfl
  have e2 : (")" : String).length = 1 := rfl
  have e3 : ("Tepat" : String).length = 5 := rfl
  omega

lemma terlampaui_ne_kurang (s t : String) :
    "Terlampaui (+" ++ s ++ ")" ≠ "Kurang (" ++ t ++ ")" := by
  intro h
  have h2 := congrArg (fun u : String => u.data.head?) h
  simp only [String.data_append, List.cons_append, List.head?_cons,
    Option.some.injEq] at h2
  exact absurd h2 (by decide)

/-- Claim C6: the summary returns the total calorie sum, the signed
difference `total - target`, and a status label that is the exact label
exactly when the difference is zero, the exceeded label (carrying the
difference) exactly when it is positive, and the short label (carrying the
difference) exactly when it is negative. -/
theorem claim_C6_summary (target : Int) (items : List Makanan) :
    (summarize target items).1 = (items.map Makanan.kalori).sum ∧
    (summarize target items).2.1 = (items.map Makanan.kalori).sum - target ∧
    ((summarize target items).2.2 = "Tepat" ↔
      (items.map Makanan.kalori).sum - target = 0) ∧
    ((summarize target items).2.2 =
        "Terlampaui (+" ++ toString ((items.map Makanan.kalori).sum - target) ++ ")" ↔
      0 < (items.map Makanan.kalori).sum - target) ∧
    ((summarize target items).2.2 =
        "Kurang (" ++ toString ((items.map Makanan.kalori).sum - target) ++ ")" ↔
      (items.map Makanan.kalori).sum - target < 0) := by
  set diff := (items.map Makanan.kalori).sum - target with hdiff
  refine ⟨rfl, rfl, ?_, ?_, ?_⟩
  · constructor
    · intro h
      by_contra hne
      rcases lt_or_gt_of_ne hne with hlt | hgt
      · have : (summarize target items).2.2 = "Kurang (" ++ toString diff ++ ")" := by
          simp only [summarize, ← hdiff]
          rw [if_neg hne, if_neg (by omega)]
        rw [this] at h
        exact kurang_ne_tepat (toString diff) h
      · have : (summarize target items).2.2 = "Terlampaui (+" ++ toString diff ++ ")" := by
          simp only [summarize, ← hdiff]
          rw [if_neg hne, if_pos hgt]
        rw [this] at h
        exact terlampaui_ne_tepat (toString diff) h
    · intro h
      simp only [summarize, ← hdiff]
      rw [if_pos h]
  · constructor
    · intro h
      by_contra hng
      by_cases h0 : diff = 0
      · have : (summarize target items).2.2 = "Tepat" := by
          simp only [summarize, ← hdiff]
          rw [if_pos h0]
        rw [this] at h
        exact terlampaui_ne_tepat (toString diff) h.symm
      · have : (summarize target items).2.2 = "Kurang (" ++ toString diff ++ ")" := by
          simp only [summarize, ← hdiff]
          rw [if_neg h0, if_neg hng]
        rw [this] at h
        exact terlampaui_ne_kurang (toString diff) (toString diff) h.symm
    · intro h
      simp only [summarize, ← hdiff]
      rw [if_neg (by omega), if_pos h]
  · constructor
    · intro h
      by_contra hng
      by_cases h0 : diff = 0
      · have : (summarize target items).2.2 = "Tepat" := by
          simp only [summarize, ← hdiff]
          rw [if_pos h0]
        rw [this] at h
        exact kurang_ne_tepat (toString diff) h.symm
      · have hpos : 0 < diff := by omega
        have : (summarize target items).2.2 = "Terlampaui (+" ++ toString diff ++ ")" := by
          simp only [summarize, ← hdiff]
          rw [if_neg h0, if_pos hpos]
        rw [this] at h
        exact terlampaui_ne_kurang (toString diff) (toString diff) h
    · intro h
      simp only [summarize, ← hdiff]
      rw [if_neg (by omega), if_neg (by omega)]

/-- `measure_time_iteratif(target, menu, trials)`: the trial loop re-runs the
full iterative selection from scratch each iteration, overwriting `result`,
and appends `(end - start) * 1_000_000` to `times`; the pair
`(result, sum(times) / len(times))` is returned. The `perf_counter` readings
of trial `k` are supplied as `startT k` and `endT k` (exact rationals). -/
def measure_time_iteratif (fuel : Nat) (target : Int) (menu : List Makanan)
    (trials : Nat) (startT endT : Nat → ℚ) : Option (List Makanan) × ℚ :=
  let fin := (List.range trials).foldl
    (fun (acc : Option (List Makanan) × List ℚ) k =>
      (greedyIterFuel fuel target menu, acc.2 ++ [(endT k - startT k) * 1000000]))
    (some [], [])
  (fin.1, fin.2.sum / (fin.2.length : ℚ))

/-- `measure_time_rekursif(target, menu, trials)`: each trial resets
`result = []` and runs the recursive selector into it from scratch. -/
def measure_time_rekursif (fuel : Nat) (target : Int) (menu : List Makanan)
    (trials : Nat) (startT endT : Nat → ℚ) : Option (List Makanan) × ℚ :=
  let fin := (List.range trials).foldl
    (fun (acc : Option (List Makanan) × List ℚ) k =>
      (greedyRekFuel fuel target menu [], acc.2 ++ [(endT k - startT k) * 1000000]))
    (some [], [])
  (fin.1, fin.2.sum / (fin.2.length : ℚ))

/-- The trial loop: after at least one trial the carried result is the
selector's (re-computed) output and the times list holds one sample per trial
in order. -/
lemma measure_loop_spec (res : Option (List Makanan)) (f : Nat → ℚ) :
    ∀ (n : Nat), 0 < n →
      ∀ (acc : Option (List Makanan) × List ℚ),
        (List.range n).foldl
          (fun (acc : Option (List Makanan) × List ℚ) k => (res, acc.2 ++ [f k])) acc =
          (res, acc.2 ++ (List.range n).map f) := by
  intro n
  induction n with
  | zero => intro h; omega
  | succ n ih =>
    intro _ acc
    rw [List.range_succ, List.foldl_append, List.map_append]
    by_cases hn : 0 < n
    · rw [ih hn acc]
      simp
    · obtain rfl : n = 0 := by omega
      simp

/-- Claim C7: for at least one trial and a terminating selection, each
harness re-runs the full selection every trial, returns the last trial's
result list — which equals the selector's output for `(target, menu)` — and
returns the arithmetic mean over all trials of the per-trial elapsed times
converted to microseconds. -/
theorem claim_C7_harness (fuel : Nat) (target : Int) (menu : List Makanan)
    (trials : Nat) (s1 e1 s2 e2 : Nat → ℚ) (l : List Makanan)
    (htr : 1 ≤ trials) (hterm : greedyIterFuel fuel target menu = some l) :
    measure_time_iteratif fuel target menu trials s1 e1 =
      (some l,
        (((List.range trials).map fun k => (e1 k - s1 k) * 1000000).sum) / (trials : ℚ)) ∧
    measure_time_rekursif fuel target menu trials s2 e2 =
      (some l,
        (((List.range trials).map fun k => (e2 k - s2 k) * 1000000).sum) / (trials : ℚ)) := by
  have hrek : greedyRekFuel fuel target menu [] = some l := by
    rw [greedyRek_eq_iter, hterm]
    rfl
  constructor
  · simp only [measure_time_iteratif]
    rw [measure_loop_spec (greedyIterFuel fuel target menu)
      (fun k => (e1 k - s1 k) * 1000000) trials (by omega) (some [], [])]
    simp [hterm]
  · simp only [measure_time_rekursif]
    rw [measure_loop_spec (greedyRekFuel fuel target menu [])
      (fun k => (e2 k - s2 k) * 1000000) trials (by omega) (some [], [])]
    simp [hrek]

/-- Claim C7 witness: one trial on target 25 with concrete clock readings;
both harnesses return the selector's output and the (single-sample) mean. -/
theorem claim_C7_witness :
    (1 ≤ 1 ∧
      greedyIterFuel 10 25 [⟨"a", 10⟩, ⟨"b", 20⟩] = some [⟨"b", 20⟩, ⟨"a", 10⟩]) ∧
    measure_time_iteratif 10 25 [⟨"a", 10⟩, ⟨"b", 20⟩] 1
        (fun _ => 0) (fun _ => 3) =
      (some [⟨"b", 20⟩, ⟨"a", 10⟩],
        (((List.range 1).map fun k => ((fun _ : Nat => (3 : ℚ)) k -
          (fun _ : Nat => (0 : ℚ)) k) * 1000000).sum) / ((1 : Nat) : ℚ)) ∧
    measure_time_rekursif 10 25 [⟨"a", 10⟩, ⟨"b", 20⟩] 1
        (fun _ => 1) (fun _ => 5) =
      (some [⟨"b", 20⟩, ⟨"a", 10⟩],
        (((List.range 1).map fun k => ((fun _ : Nat => (5 : ℚ)) k -
          (fun _ : Nat => (1 : ℚ)) k) * 1000000).sum) / ((1 : Nat) : ℚ)) :=
  ⟨⟨le_refl 1, by decide⟩,
    claim_C7_harness 10 25 [⟨"a", 10⟩, ⟨"b", 20⟩] 1
      (fun _ => 0) (fun _ => 3) (fun _ => 1) (fun _ => 5)
      [⟨"b", 20⟩, ⟨"a", 10⟩] (le_refl 1) (by decide)⟩
